import Mathlib

/-!
Shallow embedding of the json-formatter repository's core:
the HTML-escaping + regex-driven token highlighter (two variants:
the color-styled one in src/app/page.tsx and the class-styled one in
the unnamed source file), the error locator (`getErrorLocation` /
`getErrorLineNumber`), and the state transitions of the format /
minify / validate handlers.  Strings are modelled as `List Char`
(JS strings iterated by code point); the external `JSON.parse` /
`JSON.stringify` collaborators are parameters.
-/

namespace JsonFmt

/-- JS `\s` (whitespace class), as used by the token pattern's `\s*`
and by `String.prototype.trim` for the empty-input check. -/
def isJsSpace (c : Char) : Bool :=
  c = ' ' || c = '\t' || c = '\n' || c = '\r' ||
  c = Char.ofNat 11 || c = Char.ofNat 12 ||
  c = Char.ofNat 0xa0 || c = Char.ofNat 0x1680 ||
  (Char.ofNat 0x2000 ≤ c && c ≤ Char.ofNat 0x200a) ||
  c = Char.ofNat 0x2028 || c = Char.ofNat 0x2029 ||
  c = Char.ofNat 0x202f || c = Char.ofNat 0x205f ||
  c = Char.ofNat 0x3000 || c = Char.ofNat 0xfeff

/-- JS `\w` (word character), used for the `\b` boundaries around the
`true`/`false`/`null` alternatives. -/
def isWordChar (c : Char) : Bool :=
  c.isAlpha || c.isDigit || c = '_'

/-- Hex-digit class `[a-fA-F0-9]` of the unnamed variant's `\u` escape. -/
def isHexAF (c : Char) : Bool :=
  c.isDigit || ('a' ≤ c && c ≤ 'f') || ('A' ≤ c && c ≤ 'F')

/-- Character class `[a-zA-Z0-9]` of the page.tsx variant's `\u` escape. -/
def isAlnumAscii (c : Char) : Bool :=
  c.isAlpha || c.isDigit

/-- JS `String.prototype.replace` with a global single-character class:
scan left to right, emit the replacement for each matching character and
continue after the match (the replacement is never rescanned). -/
def replaceChars (p : Char → Bool) (w : Char → List Char) : List Char → List Char
  | [] => []
  | c :: r => if p c then w c ++ replaceChars p w r else c :: replaceChars p w r

/-- First escape pass: `.replace(/&/g, "&amp;")`. -/
def escAmp (s : List Char) : List Char :=
  replaceChars (fun c => c = '&') (fun _ => ("&amp;").data) s

/-- Second escape pass: `.replace(/</g, "&lt;")`. -/
def escLt (s : List Char) : List Char :=
  replaceChars (fun c => c = '<') (fun _ => ("&lt;").data) s

/-- Third escape pass: `.replace(/>/g, "&gt;")`. -/
def escGt (s : List Char) : List Char :=
  replaceChars (fun c => c = '>') (fun _ => ("&gt;").data) s

/-- The three sequential escape passes of both highlighter variants,
in source order: `&` first, then `<`, then `>`. -/
def escapeHtml (s : List Char) : List Char :=
  escGt (escLt (escAmp s))

/-- The simultaneous per-character escape; the spec's claim is that the
three sequential passes amount to this (no double-encoding). -/
def escFn (c : Char) : List Char :=
  if c = '&' then ("&amp;").data
  else if c = '<' then ("&lt;").data
  else if c = '>' then ("&gt;").data
  else [c]

/-! ## The token pattern

Both variants apply one global regex
`("(\\uHHHH|\\[^u]|[^\\"])*"(\s*:)?|\b(true|false|null)\b|-?\d+(?:\.\d*)?(?:[eE][+-]?\d+)?)`
(they differ only in the hex class of the `\u` escape).  The scanner
below reproduces the JS engine's leftmost-match, ordered-alternative,
greedy semantics; for this pattern backtracking never changes the
outcome, so the scan is deterministic. -/

/-- Body of the string alternative: consumes
`(\\uHHHH | \\[^u] | [^\\"])*"` and returns the consumed characters
(closing quote included) and the remaining input, or `none` when no
closing quote is reachable. -/
def strBody (hex : Char → Bool) : List Char → Option (List Char × List Char)
  | [] => none
  | c :: rest =>
    if c = '"' then some ([c], rest)
    else if c = '\\' then
      match rest with
      | [] => none
      | d :: rest2 =>
        if d = 'u' then
          match rest2 with
          | h1 :: h2 :: h3 :: h4 :: rest3 =>
            if hex h1 && hex h2 && hex h3 && hex h4 then
              match strBody hex rest3 with
              | some (t, r) => some (c :: d :: h1 :: h2 :: h3 :: h4 :: t, r)
              | none => none
            else none
          | _ => none
        else
          match strBody hex rest2 with
          | some (t, r) => some (c :: d :: t, r)
          | none => none
    else
      match strBody hex rest with
      | some (t, r) => some (c :: t, r)
      | none => none

/-- Structural kind of a match of the token pattern: a quoted string
(with the flag recording whether the optional `\s*:` was consumed),
one of the bare keywords, or a numeric literal. -/
inductive TokKind where
  | str (colon : Bool)
  | kw (w : List Char)
  | num
deriving DecidableEq

/-- A match of the token pattern: its kind and its exact matched text. -/
structure Tok where
  kind : TokKind
  text : List Char
deriving DecidableEq

/-- First alternative, `"(...)*"(\s*:)?`: a quoted string, greedily
followed by optional whitespace and a colon. -/
def matchString (hex : Char → Bool) : List Char → Option (Tok × List Char)
  | '"' :: rest =>
    match strBody hex rest with
    | some (body, r) =>
      match r.dropWhile isJsSpace with
      | ':' :: r2 =>
        some (⟨.str true, '"' :: body ++ r.takeWhile isJsSpace ++ [':']⟩, r2)
      | _ => some (⟨.str false, '"' :: body⟩, r)
    | none => none
  | _ => none

/-- One keyword alternative `w` with the trailing `\b`. -/
def kwTail (w : List Char) (cs : List Char) : Option (Tok × List Char) :=
  if w.isPrefixOf cs then
    match cs.drop w.length with
    | [] => some (⟨.kw w, w⟩, [])
    | c :: cl => if isWordChar c then none else some (⟨.kw w, w⟩, c :: cl)
  else none

/-- The leading `\b` of the keyword alternative fails exactly when the
preceding character is a word character. -/
def prevIsWord : Option Char → Bool
  | some c => isWordChar c
  | none => false

/-- Second alternative, `\b(true|false|null)\b`: the leading `\b` checks
the character just before the scan position. -/
def matchKeyword (prev : Option Char) (cs : List Char) : Option (Tok × List Char) :=
  if prevIsWord prev then none
  else
    ((kwTail ("true").data cs).orElse fun _ =>
      (kwTail ("false").data cs).orElse fun _ => kwTail ("null").data cs)

/-- The optional fractional part `(?:\.\d*)?` (greedy; the digit run
may be empty). -/
def numFrac : List Char → List Char × List Char
  | '.' :: r => ('.' :: r.takeWhile Char.isDigit, r.dropWhile Char.isDigit)
  | cs => ([], cs)

/-- The optional exponent sign `[+-]?`. -/
def numSign : List Char → List Char × List Char
  | s :: r => if s = '+' || s = '-' then ([s], r) else ([], s :: r)
  | [] => ([], [])

/-- The optional exponent part `(?:[eE][+-]?\d+)?`: with no digit after
the optional sign the group matches empty. -/
def numExp : List Char → List Char × List Char
  | e :: r =>
    if e = 'e' || e = 'E' then
      match numSign r with
      | (sgn, r2) =>
        if (r2.takeWhile Char.isDigit).isEmpty then ([], e :: r)
        else (e :: sgn ++ r2.takeWhile Char.isDigit, r2.dropWhile Char.isDigit)
    else ([], e :: r)
  | [] => ([], [])

/-- The `\d+(?:\.\d*)?(?:[eE][+-]?\d+)?` part, after the optional
minus sign. -/
def numAfterSign (neg cs1 : List Char) : Option (Tok × List Char) :=
  if (cs1.takeWhile Char.isDigit).isEmpty then none
  else
    match numFrac (cs1.dropWhile Char.isDigit) with
    | (frac, cs3) =>
      match numExp cs3 with
      | (ex, cs4) =>
        some (⟨.num, neg ++ cs1.takeWhile Char.isDigit ++ frac ++ ex⟩, cs4)

/-- Third alternative, `-?\d+(?:\.\d*)?(?:[eE][+-]?\d+)?`. -/
def matchNumber : List Char → Option (Tok × List Char)
  | '-' :: r => numAfterSign ['-'] r
  | cs => numAfterSign [] cs

/-- Try the three alternatives of the token pattern, in source order,
at the current scan position (`prev` is the preceding character, for
the `\b` of the keyword alternative). -/
def tryToken (hex : Char → Bool) (prev : Option Char) (cs : List Char) :
    Option (Tok × List Char) :=
  ((matchString hex cs).orElse fun _ =>
    (matchKeyword prev cs).orElse fun _ => matchNumber cs)

/-- A segment of the global-replace decomposition: an unmatched raw
character, or a match of the token pattern. -/
inductive Seg where
  | raw (c : Char)
  | tok (t : Tok)
deriving DecidableEq

/-- Fuel-indexed global scan: at each position try the token pattern;
on a match, continue after it, otherwise move one character.  Each step
consumes at least one character, so fuel `= length` is exact. -/
def scanF (hex : Char → Bool) : Nat → Option Char → List Char → List Seg
  | 0, _, _ => []
  | fuel + 1, prev, cs =>
    match tryToken hex prev cs with
    | some (t, rest) => .tok t :: scanF hex fuel t.text.getLast? rest
    | none =>
      match cs with
      | [] => []
      | c :: rest => .raw c :: scanF hex fuel (some c) rest

/-- The global scan of the token regex over a whole input. -/
def scanTokens (hex : Char → Bool) (cs : List Char) : List Seg :=
  scanF hex cs.length none cs

/-- The matched text of a segment (a raw character is itself). -/
def segText : Seg → List Char
  | .raw c => [c]
  | .tok t => t.text

/-- The characters a match of the numeric alternative can contain. -/
def isNumChar (c : Char) : Bool :=
  c.isDigit || c = '-' || c = '+' || c = '.' || c = 'e' || c = 'E'

/-- Every ampersand opens one of the three injected entities: the
formal reading of "no bare `&`". -/
def ampEntityOk : List Char → Bool
  | [] => true
  | c :: r =>
    (if c = '&' then
      ("amp;").data.isPrefixOf r || ("lt;").data.isPrefixOf r ||
        ("gt;").data.isPrefixOf r
     else true) && ampEntityOk r

/-! ## The two replace callbacks -/

/-- JS `/true|false/.test(m)` and `/null/.test(m)` are substring
tests; this is the substring test on character lists. -/
def hasInfix (pat : List Char) : List Char → Bool
  | [] => pat.isEmpty
  | c :: rest => pat.isPrefixOf (c :: rest) || hasInfix pat rest

/-- The class chosen by the unnamed variant's callback: default
`json-number`, overridden by the `/^"/`, `/:$/`, `/true|false/`,
`/null/` tests (the latter two are substring tests). -/
def classify000 (m : List Char) : List Char :=
  if m.head? = some '"' then
    if m.getLast? = some ':' then ("json-key").data else ("json-string").data
  else if hasInfix ("true").data m || hasInfix ("false").data m then
    ("json-boolean").data
  else if hasInfix ("null").data m then ("json-null").data
  else ("json-number").data

/-- The unnamed variant's replacement: the match wrapped in a
class-tagged span, text unmodified. -/
def render000 : Seg → List Char
  | .raw c => [c]
  | .tok t =>
    ("<span class=\"").data ++ classify000 t.text ++ ("\">").data ++
      t.text ++ ("</span>").data

/-- The unnamed variant's `syntaxHighlight`: escape the three HTML
characters, then apply the global token regex. -/
def part000Highlight (s : List Char) : List Char :=
  (((scanTokens isHexAF (escapeHtml s)).map render000).flatten)

/-- The color chosen by the page.tsx variant's callback (same test
chain as the class variant, with the theme's color values). -/
def pageColor (m : List Char) : List Char :=
  if m.head? = some '"' then
    if m.getLast? = some ':' then ("#9cdcfe").data else ("#ce9178").data
  else if hasInfix ("true").data m || hasInfix ("false").data m then
    ("#569cd6").data
  else if hasInfix ("null").data m then ("#569cd6").data
  else ("#b5cea8").data

/-- page.tsx key branch, first mutation: `match.replace(/"/g, '"')`
(replaces every double quote by a double quote). -/
def replaceQuotes (m : List Char) : List Char :=
  replaceChars (fun c => c = '"') (fun _ => ['"']) m

/-- page.tsx key branch, second mutation: `match.replace(/:$/, '":')`
(replaces a trailing colon by a quote and a colon). -/
def replaceColonEnd (m : List Char) : List Char :=
  if m.getLast? = some ':' then m.dropLast ++ ('"' :: [':']) else m

/-- The page.tsx variant's replacement: a style-tagged span; in the key
branch the match text is first run through the two mutations. -/
def pageRender : Seg → List Char
  | .raw c => [c]
  | .tok t =>
    ("<span style=\"color:").data ++ pageColor t.text ++ ("\">").data ++
      (if t.text.head? = some '"' && t.text.getLast? = some ':' then
        replaceColonEnd (replaceQuotes t.text)
      else t.text) ++ ("</span>").data

/-- The page.tsx token-regex pass (after escaping, before the brace and
bracket passes). -/
def pageTokenPass (cs : List Char) : List Char :=
  ((scanTokens isAlnumAscii cs).map pageRender).flatten

/-- page.tsx `.replace(/([{}])/g, ...)`: every brace, wherever it
occurs, becomes a brace-colored span. -/
def pageBracePass (cs : List Char) : List Char :=
  replaceChars (fun c => c = '{' || c = '}')
    (fun c => ("<span style=\"color:#da70d6\">").data ++ [c] ++ ("</span>").data) cs

/-- page.tsx `.replace(/([[\]])/g, ...)`: every square bracket becomes
a bracket-colored span. -/
def pageBracketPass (cs : List Char) : List Char :=
  replaceChars (fun c => c = '[' || c = ']')
    (fun c => ("<span style=\"color:#ffd700\">").data ++ [c] ++ ("</span>").data) cs

/-- The page.tsx variant's `syntaxHighlight`: escape, token pass, brace
pass, bracket pass, in source order. -/
def pageHighlight (s : List Char) : List Char :=
  pageBracketPass (pageBracePass (pageTokenPass (escapeHtml s)))

/-! ## Error locator -/

/-- ASCII lower-casing, modelling the `/i` flag of the two message
regexes (their pattern letters are ASCII). -/
def toLowerAscii (c : Char) : Char :=
  if 'A' ≤ c && c ≤ 'Z' then Char.ofNat (c.toNat + 32) else c

/-- Case-insensitive prefix test against an (already lowercase)
pattern. -/
def ciPrefix : List Char → List Char → Bool
  | [], _ => true
  | _ :: _, [] => false
  | p :: ps, c :: cs => (toLowerAscii c = p) && ciPrefix ps cs

/-- `parseInt(digits, 10)` on the digit run captured by `(\d+)`. -/
def digitsToNat (ds : List Char) : Nat :=
  ds.foldl (fun a c => 10 * a + (c.toNat - ('0').toNat)) 0

/-- Attempt `pat` + `\s+` + `(\d+)` at the current position. -/
def numAfterAt (pat l : List Char) : Option Nat :=
  if ciPrefix pat l then
    let r := l.drop pat.length
    let ws := r.takeWhile isJsSpace
    if ws.isEmpty then none
    else
      let ds := (r.drop ws.length).takeWhile Char.isDigit
      if ds.isEmpty then none else some (digitsToNat ds)
  else none

/-- Leftmost match of `pat\s+(\d+)` (case-insensitive), as the regex
engine finds it: try each start position in order. -/
def findNumAfter (pat : List Char) : List Char → Option Nat
  | [] => none
  | c :: rest => (numAfterAt pat (c :: rest)).orElse fun _ => findNumAfter pat rest

/-- `message.match(/position\s+(\d+)/i)`, reduced to the captured
offset. -/
def positionMatch (msg : List Char) : Option Nat :=
  findNumAfter ("position").data msg

/-- `message.match(/line\s+(\d+)/i)`, reduced to the captured line. -/
def lineMatch (msg : List Char) : Option Nat :=
  findNumAfter ("line").data msg

/-- The character walk of `getErrorLocation`: starting from 1-based
line/column counters, advance over the text, breaking once the running
character count reaches the target offset. -/
def locGo (p : Nat) : Nat × Nat → Nat → List Char → Nat × Nat
  | lc, _, [] => lc
  | (line, col), pos, c :: r =>
    if p ≤ pos then (line, col)
    else if c = '\n' then locGo p (line + 1, 1) (pos + 1) r
    else locGo p (line, col + 1) (pos + 1) r

/-- The unnamed variant's `getErrorLocation(jsonString, error)`:
extract a `position N` offset from the message and walk the source. -/
def getErrorLocation (t msg : List Char) : Option (Nat × Nat) :=
  (positionMatch msg).map fun p => locGo p (1, 1) 0 t

/-- `String.prototype.split("\n")`. -/
def splitNl : List Char → List (List Char)
  | [] => [[]]
  | c :: r =>
    if c = '\n' then [] :: splitNl r
    else
      match splitNl r with
      | h :: t => (c :: h) :: t
      | [] => [[c]]

/-- The walk of `getErrorLocation` run to the end of the text (what the
loop computes when the offset lies at or beyond the text length). -/
def endWalk (lc : Nat × Nat) (l : List Char) : Nat × Nat :=
  l.foldl (fun q c => if c = '\n' then (q.1 + 1, 1) else (q.1, q.2 + 1)) lc

/-- page.tsx `getErrorLineNumber(error, input)`: on a `position N`
match, the number of lines of `input.substring(0, N)`; otherwise the
raw digits of a `line N` match; otherwise null. -/
def getErrorLineNumber (msg t : List Char) : Option Nat :=
  match positionMatch msg with
  | some p => some (splitNl (t.take p)).length
  | none => lineMatch msg

/-! ## UI handler state transitions

`JSON.parse` and `JSON.stringify` are external collaborators; they are
parameters (`parse` failing with the thrown `SyntaxError`'s message,
and the two serialization shapes used by the handlers). -/

/-- The page.tsx state cells written by its handlers. -/
structure PageState where
  output : List Char
  error : Option (List Char)
  errorLine : Option Nat
deriving DecidableEq

/-- page.tsx `formatJSON`: early return on blank input, else parse and
either pretty-print or record the error and its line. -/
def pageFormatJSON {α : Type} (parse : List Char → Except (List Char) α)
    (stringify : α → Nat → List Char) (indentSize : Nat)
    (input : List Char) : PageState :=
  if input.all isJsSpace then ⟨[], none, none⟩
  else
    match parse input with
    | .ok v => ⟨stringify v indentSize, none, none⟩
    | .error msg => ⟨[], some msg, getErrorLineNumber msg input⟩

/-- page.tsx `minifyJSON`. -/
def pageMinifyJSON {α : Type} (parse : List Char → Except (List Char) α)
    (stringifyMin : α → List Char) (input : List Char) : PageState :=
  if input.all isJsSpace then ⟨[], none, none⟩
  else
    match parse input with
    | .ok v => ⟨stringifyMin v, none, none⟩
    | .error msg => ⟨[], some msg, getErrorLineNumber msg input⟩

/-- page.tsx `validateJSON`: on blank input it sets the prompt message
as the error; it never writes the output cell. -/
def pageValidateJSON {α : Type} (parse : List Char → Except (List Char) α)
    (input : List Char) (st : PageState) : PageState :=
  if input.all isJsSpace then
    { st with error := some ("Please enter some JSON to validate").data,
              errorLine := none }
  else
    match parse input with
    | .ok _ => { st with error := none, errorLine := none }
    | .error msg =>
      { st with error := some msg, errorLine := getErrorLineNumber msg input }

/-- The unnamed variant's structured error value. -/
structure JsonError0 where
  message : List Char
  line : Option Nat
  column : Option Nat
deriving DecidableEq

/-- The unnamed variant's `parseAndValidate`: blank input parses to
nothing with no error; a parse failure carries the message and the
located line/column (null when unresolvable). -/
def parseAndValidate {α : Type} (parse : List Char → Except (List Char) α)
    (input : List Char) : Option α × Option JsonError0 :=
  if input.all isJsSpace then (none, none)
  else
    match parse input with
    | .ok v => (some v, none)
    | .error msg =>
      let loc := getErrorLocation input msg
      (none, some ⟨msg, loc.map Prod.fst, loc.map Prod.snd⟩)

/-- The unnamed variant's state cells written by `formatJson`. -/
structure P0State where
  output : List Char
  highlightedOutput : List Char
  error : Option JsonError0
deriving DecidableEq

/-- The unnamed variant's `formatJson(minify)`: error clears both
outputs; a null parse result (blank input, or the JSON value `null`,
which the code conflates) clears everything; otherwise serialize and
cache the highlighted output. -/
def formatJson0 {α : Type} (parse : List Char → Except (List Char) α)
    (isNull : α → Bool) (stringify2 : α → List Char)
    (stringifyMin : α → List Char) (minify : Bool)
    (input : List Char) : P0State :=
  match parseAndValidate parse input with
  | (_, some pe) => ⟨[], [], some pe⟩
  | (none, none) => ⟨[], [], none⟩
  | (some v, none) =>
    if isNull v then ⟨[], [], none⟩
    else
      let f := if minify then stringifyMin v else stringify2 v
      ⟨f, part000Highlight f, none⟩

/-! # Lemmas -/

theorem replaceChars_append (p : Char → Bool) (w : Char → List Char)
    (a b : List Char) :
    replaceChars p w (a ++ b) = replaceChars p w a ++ replaceChars p w b := by
  induction a with
  | nil => rfl
  | cons c r ih => by_cases h : p c <;> simp [replaceChars, h, ih]

theorem replaceChars_flatMap (p : Char → Bool) (w : Char → List Char)
    (l : List Char) :
    replaceChars p w l = l.flatMap fun c => if p c then w c else [c] := by
  induction l with
  | nil => rfl
  | cons c r ih => by_cases h : p c <;> simp [replaceChars, h, ih]

theorem escapeHtml_cons (c : Char) (r : List Char) :
    escapeHtml (c :: r) = escFn c ++ escapeHtml r := by
  have h1 : escAmp (c :: r) = (if c = '&' then ("&amp;").data else [c]) ++ escAmp r := by
    by_cases h : c = '&' <;> simp [escAmp, replaceChars, h]
  show escGt (escLt (escAmp (c :: r))) = _
  rw [h1]
  unfold escLt escGt
  rw [replaceChars_append, replaceChars_append]
  congr 1
  by_cases h1 : c = '&'
  · subst h1; rfl
  · by_cases h2 : c = '<'
    · subst h2; rfl
    · by_cases h3 : c = '>'
      · subst h3; rfl
      · simp [escFn, replaceChars, h1, h2, h3]

theorem escapeHtml_flatMap (s : List Char) :
    escapeHtml s = s.flatMap escFn := by
  induction s with
  | nil => rfl
  | cons c r ih => rw [escapeHtml_cons, ih]; rfl

theorem mem_escFn_ne_angle (a c : Char) (ha : a = '<' ∨ a = '>')
    (hc : a ∈ escFn c) : False := by
  unfold escFn at hc
  split_ifs at hc with h1 h2 h3
  · rcases ha with rfl | rfl <;> revert hc <;> decide
  · rcases ha with rfl | rfl <;> revert hc <;> decide
  · rcases ha with rfl | rfl <;> revert hc <;> decide
  · rw [List.mem_singleton] at hc
    subst hc
    rcases ha with rfl | rfl
    · exact h2 rfl
    · exact h3 rfl

theorem no_raw_angle_escapeHtml (s : List Char) :
    '<' ∉ escapeHtml s ∧ '>' ∉ escapeHtml s := by
  rw [escapeHtml_flatMap]
  constructor <;> intro hmem <;> rw [List.mem_flatMap] at hmem <;>
    obtain ⟨c, _, hc⟩ := hmem
  · exact mem_escFn_ne_angle '<' c (Or.inl rfl) hc
  · exact mem_escFn_ne_angle '>' c (Or.inr rfl) hc

theorem ampEntityOk_amp (l : List Char) :
    ampEntityOk (("&amp;").data ++ l) = ampEntityOk l := by
  rw [(by decide : ("&amp;").data = ['&', 'a', 'm', 'p', ';'])]
  simp +decide [ampEntityOk, List.isPrefixOf]

theorem ampEntityOk_lt (l : List Char) :
    ampEntityOk (("&lt;").data ++ l) = ampEntityOk l := by
  rw [(by decide : ("&lt;").data = ['&', 'l', 't', ';'])]
  simp +decide [ampEntityOk, List.isPrefixOf]

theorem ampEntityOk_gt (l : List Char) :
    ampEntityOk (("&gt;").data ++ l) = ampEntityOk l := by
  rw [(by decide : ("&gt;").data = ['&', 'g', 't', ';'])]
  simp +decide [ampEntityOk, List.isPrefixOf]

theorem ampEntityOk_cons (c : Char) (l : List Char) (h : c ≠ '&') :
    ampEntityOk (c :: l) = ampEntityOk l := by
  simp [ampEntityOk, h]

theorem ampEntityOk_escapeHtml (s : List Char) :
    ampEntityOk (escapeHtml s) = true := by
  induction s with
  | nil => rfl
  | cons c r ih =>
    rw [escapeHtml_cons]
    by_cases h1 : c = '&'
    · subst h1; rw [show escFn '&' = ("&amp;").data from rfl, ampEntityOk_amp]; exact ih
    · by_cases h2 : c = '<'
      · subst h2; rw [show escFn '<' = ("&lt;").data from rfl, ampEntityOk_lt]; exact ih
      · by_cases h3 : c = '>'
        · subst h3; rw [show escFn '>' = ("&gt;").data from rfl, ampEntityOk_gt]; exact ih
        · rw [show escFn c = [c] by simp [escFn, h1, h2, h3]]
          rw [List.singleton_append, ampEntityOk_cons c _ h1]
          exact ih

theorem hasInfix_subset (pat : List Char) (l : List Char)
    (h : hasInfix pat l = true) : pat ⊆ l := by
  induction l with
  | nil =>
    simp only [hasInfix, List.isEmpty_iff] at h
    subst h; exact List.Subset.refl _
  | cons c r ih =>
    simp only [hasInfix, Bool.or_eq_true] at h
    rcases h with h | h
    · exact (List.isPrefixOf_iff_prefix.mp h).subset
    · exact (ih h).trans (List.subset_cons_self c r)

theorem strBody_spec (hex : Char → Bool) (cs : List Char) :
    ∀ b r, strBody hex cs = some (b, r) →
      b ++ r = cs ∧ b.getLast? = some '"' := by
  induction cs using strBody.induct hex with
  | case1 => intro b r h; unfold strBody at h; simp at h
  | case2 rest =>
    intro b r h
    unfold strBody at h
    simp at h
    obtain ⟨rfl, rfl⟩ := h
    simp
  | case3 _ => intro b r h; unfold strBody at h; simp at h
  | case4 h1 h2 h3 h4 rest3 hhex t r0 hrec hne ih =>
    intro b r h
    unfold strBody at h
    simp [hhex, hrec] at h
    obtain ⟨rfl, rfl⟩ := h
    obtain ⟨ha, hl⟩ := ih t r0 hrec
    rw [List.getLast?_eq_some_iff] at hl
    obtain ⟨ys, rfl⟩ := hl
    constructor
    · simpa using ha
    · rw [List.getLast?_eq_some_iff]
      exact ⟨'\\' :: 'u' :: h1 :: h2 :: h3 :: h4 :: ys, by simp⟩
  | case5 h1 h2 h3 h4 rest3 hhex hrec hne ih =>
    intro b r h
    unfold strBody at h
    simp [hhex, hrec] at h
  | case6 h1 h2 h3 h4 rest3 hhex hne =>
    intro b r h
    unfold strBody at h
    simp [hhex] at h
  | case7 r hshape hne =>
    intro b r2 h
    rcases r with _ | ⟨a1, r⟩
    · unfold strBody at h; simp at h
    rcases r with _ | ⟨a2, r⟩
    · unfold strBody at h; simp at h
    rcases r with _ | ⟨a3, r⟩
    · unfold strBody at h; simp at h
    rcases r with _ | ⟨a4, r⟩
    · unfold strBody at h; simp at h
    exact (hshape a1 a2 a3 a4 r rfl).elim
  | case8 c r hc t r1 hrec hne ih =>
    intro b r2 h
    unfold strBody at h
    simp [hc, hrec] at h
    obtain ⟨rfl, rfl⟩ := h
    obtain ⟨ha, hl⟩ := ih t r1 hrec
    rw [List.getLast?_eq_some_iff] at hl
    obtain ⟨ys, rfl⟩ := hl
    constructor
    · simpa using ha
    · rw [List.getLast?_eq_some_iff]; exact ⟨'\\' :: c :: ys, by simp⟩
  | case9 c r hc hrec hne ih =>
    intro b r2 h
    unfold strBody at h
    simp [hc, hrec] at h
  | case10 c r hq hb t r1 hrec ih =>
    intro b r2 h
    unfold strBody at h
    simp [hq, hb, hrec] at h
    obtain ⟨rfl, rfl⟩ := h
    obtain ⟨ha, hl⟩ := ih t r1 hrec
    rw [List.getLast?_eq_some_iff] at hl
    obtain ⟨ys, rfl⟩ := hl
    constructor
    · simpa using ha
    · rw [List.getLast?_eq_some_iff]; exact ⟨c :: ys, by simp⟩
  | case11 c r hq hb hrec ih =>
    intro b r2 h
    unfold strBody at h
    simp [hq, hb, hrec] at h

theorem matchString_spec (hex : Char → Bool) (cs : List Char) (t : Tok)
    (rest : List Char) (h : matchString hex cs = some (t, rest)) :
    ∃ b, t.kind = TokKind.str b ∧ t.text ++ rest = cs ∧
      t.text.head? = some '"' ∧
      t.text.getLast? = some (if b then ':' else '"') := by
  rw [matchString.eq_def] at h
  split at h
  · rename_i rest0
    split at h
    · rename_i body r hsb
      obtain ⟨hbr, hlast⟩ := strBody_spec hex rest0 body r hsb
      rw [List.getLast?_eq_some_iff] at hlast
      obtain ⟨ys, rfl⟩ := hlast
      split at h
      · rename_i r2 hdw
        have hr : r.takeWhile isJsSpace ++ (':' :: r2) = r := by
          rw [← hdw]; exact List.takeWhile_append_dropWhile isJsSpace r
        simp at h
        obtain ⟨rfl, rfl⟩ := h
        refine ⟨true, rfl, ?_, by simp, ?_⟩
        · conv_rhs => rw [← hbr, ← hr]
          simp
        · refine List.getLast?_eq_some_iff.mpr ?_
          exact ⟨'"' :: (ys ++ ['"'] ++ List.takeWhile isJsSpace r), by simp⟩
      · simp at h
        obtain ⟨rfl, rfl⟩ := h
        refine ⟨false, rfl, ?_, by simp, ?_⟩
        · conv_rhs => rw [← hbr]
          simp
        · refine List.getLast?_eq_some_iff.mpr ?_
          exact ⟨'"' :: ys, by simp⟩
    · simp at h
  · simp at h

theorem kwTail_spec (w cs : List Char) (t : Tok) (rest : List Char)
    (h : kwTail w cs = some (t, rest)) :
    t.kind = TokKind.kw w ∧ t.text = w ∧ w ++ rest = cs := by
  unfold kwTail at h
  split at h
  · rename_i hpre
    obtain ⟨tail, htail⟩ := List.isPrefixOf_iff_prefix.mp hpre
    have hdrop : cs.drop w.length = tail := by
      rw [← htail]; exact List.drop_left w tail
    split at h
    · rename_i hnil
      simp at h
      obtain ⟨rfl, rfl⟩ := h
      refine ⟨rfl, rfl, ?_⟩
      rw [hdrop] at hnil
      rw [← htail, hnil]
    · rename_i c cl hcons
      split at h
      · simp at h
      · simp at h
        obtain ⟨rfl, rfl⟩ := h
        refine ⟨rfl, rfl, ?_⟩
        rw [← hcons, hdrop, htail]
  · simp at h

theorem kwAlts_spec (cs : List Char) (t : Tok) (rest : List Char)
    (h : ((kwTail ("true").data cs).orElse fun _ =>
      (kwTail ("false").data cs).orElse fun _ =>
        kwTail ("null").data cs) = some (t, rest)) :
    ∃ w, t.kind = TokKind.kw w ∧ t.text = w ∧ w ++ rest = cs ∧
      (w = ("true").data ∨ w = ("false").data ∨ w = ("null").data) := by
  cases h1 : kwTail ("true").data cs with
  | some v =>
    rw [h1] at h
    simp [Option.orElse] at h
    rw [h] at h1
    obtain ⟨hk, ht, ha⟩ := kwTail_spec _ cs t rest h1
    exact ⟨_, hk, ht, ha, Or.inl rfl⟩
  | none =>
    rw [h1] at h
    simp only [Option.orElse] at h
    cases h2 : kwTail ("false").data cs with
    | some v =>
      rw [h2] at h
      simp [Option.orElse] at h
      rw [h] at h2
      obtain ⟨hk, ht, ha⟩ := kwTail_spec _ cs t rest h2
      exact ⟨_, hk, ht, ha, Or.inr (Or.inl rfl)⟩
    | none =>
      rw [h2] at h
      simp only [Option.orElse] at h
      obtain ⟨hk, ht, ha⟩ := kwTail_spec _ cs t rest h
      exact ⟨_, hk, ht, ha, Or.inr (Or.inr rfl)⟩

theorem matchKeyword_spec (prev : Option Char) (cs : List Char) (t : Tok)
    (rest : List Char) (h : matchKeyword prev cs = some (t, rest)) :
    ∃ w, t.kind = TokKind.kw w ∧ t.text = w ∧ w ++ rest = cs ∧
      (w = ("true").data ∨ w = ("false").data ∨ w = ("null").data) := by
  unfold matchKeyword at h
  split at h
  · simp at h
  · exact kwAlts_spec cs t rest h

theorem numSign_spec (l sgn r : List Char) (h : numSign l = (sgn, r)) :
    sgn ++ r = l ∧ ∀ c ∈ sgn, c = '+' ∨ c = '-' := by
  unfold numSign at h
  split at h
  · rename_i s r0
    split at h
    · rename_i hs
      simp at h
      obtain ⟨rfl, rfl⟩ := h
      simp only [Bool.or_eq_true, decide_eq_true_eq] at hs
      refine ⟨rfl, ?_⟩
      intro c hc
      rw [List.mem_singleton] at hc
      subst hc
      exact hs
    · simp at h
      obtain ⟨rfl, rfl⟩ := h
      simp
  · simp at h
    obtain ⟨rfl, rfl⟩ := h
    simp

theorem numFrac_spec (l f r : List Char) (h : numFrac l = (f, r)) :
    f ++ r = l ∧ ∀ c ∈ f, isNumChar c = true := by
  unfold numFrac at h
  split at h
  · rename_i r0
    simp at h
    obtain ⟨rfl, rfl⟩ := h
    refine ⟨by simp [List.takeWhile_append_dropWhile], ?_⟩
    intro c hc
    rcases List.mem_cons.mp hc with rfl | hc
    · decide
    · have hd := List.mem_takeWhile_imp hc
      simp [isNumChar, hd]
  · simp at h
    obtain ⟨rfl, rfl⟩ := h
    simp

theorem numExp_spec (l ex r : List Char) (h : numExp l = (ex, r)) :
    ex ++ r = l ∧ ∀ c ∈ ex, isNumChar c = true := by
  unfold numExp at h
  split at h
  · rename_i e r0
    split at h
    · rename_i he
      simp only [Bool.or_eq_true, decide_eq_true_eq] at he
      cases hns : numSign r0 with
      | mk sgn r2 =>
        rw [hns] at h
        obtain ⟨hsr, hsc⟩ := numSign_spec r0 sgn r2 hns
        simp only at h
        split at h
        · simp at h
          obtain ⟨rfl, rfl⟩ := h
          simp
        · simp at h
          obtain ⟨rfl, rfl⟩ := h
          constructor
          · conv_rhs => rw [show e :: r0 = e :: (sgn ++ r2) from by rw [hsr],
              show r2 = r2.takeWhile Char.isDigit ++ r2.dropWhile Char.isDigit from
                (List.takeWhile_append_dropWhile Char.isDigit r2).symm]
            simp
          · intro c hc
            rcases List.mem_cons.mp hc with rfl | hc
            · rcases he with rfl | rfl <;> decide
            · rcases List.mem_append.mp hc with hc | hc
              · rcases hsc c hc with rfl | rfl <;> decide
              · have hd := List.mem_takeWhile_imp hc
                simp [isNumChar, hd]
    · simp at h
      obtain ⟨rfl, rfl⟩ := h
      simp
  · simp at h
    obtain ⟨rfl, rfl⟩ := h
    simp

theorem numAfterSign_spec (neg cs1 : List Char) (t : Tok) (rest : List Char)
    (hneg : ∀ c ∈ neg, c = '-') (h : numAfterSign neg cs1 = some (t, rest)) :
    t.kind = TokKind.num ∧ t.text ++ rest = neg ++ cs1 ∧
      t.text.length ≠ 0 ∧ ∀ c ∈ t.text, isNumChar c = true := by
  unfold numAfterSign at h
  split at h
  · simp at h
  · rename_i hds
    rw [List.isEmpty_iff] at hds
    cases hnf : numFrac (cs1.dropWhile Char.isDigit) with
    | mk frac cs3 =>
      rw [hnf] at h
      obtain ⟨hfr, hfc⟩ := numFrac_spec _ frac cs3 hnf
      simp only at h
      cases hne : numExp cs3 with
      | mk ex cs4 =>
        rw [hne] at h
        obtain ⟨her, hec⟩ := numExp_spec _ ex cs4 hne
        simp only at h
        simp at h
        obtain ⟨rfl, rfl⟩ := h
        refine ⟨rfl, ?_, ?_, ?_⟩
        · conv_rhs =>
            rw [show cs1 = cs1.takeWhile Char.isDigit ++ cs1.dropWhile Char.isDigit from
              (List.takeWhile_append_dropWhile Char.isDigit cs1).symm,
              show cs1.dropWhile Char.isDigit = frac ++ cs3 from hfr.symm,
              show cs3 = ex ++ cs4 from her.symm]
          simp
        · simp [hds]
        · intro c hc
          simp only [List.mem_append, List.mem_cons] at hc
          rcases hc with hc | hc | hc | hc
          · rw [hneg c hc]; decide
          · have hd := List.mem_takeWhile_imp hc
            simp [isNumChar, hd]
          · exact hfc c hc
          · exact hec c hc

theorem matchNumber_spec (cs : List Char) (t : Tok) (rest : List Char)
    (h : matchNumber cs = some (t, rest)) :
    t.kind = TokKind.num ∧ t.text ++ rest = cs ∧ t.text ≠ [] ∧
      ∀ c ∈ t.text, isNumChar c = true := by
  rw [matchNumber.eq_def] at h
  split at h
  · rename_i r
    obtain ⟨hk, ha, hl, hc⟩ := numAfterSign_spec ['-'] r t rest (by simp) h
    exact ⟨hk, ha, by simpa [List.length_eq_zero] using hl, hc⟩
  · obtain ⟨hk, ha, hl, hc⟩ := numAfterSign_spec [] cs t rest (by simp) h
    exact ⟨hk, by simpa using ha, by simpa [List.length_eq_zero] using hl, hc⟩

/-- What any match of the token pattern can be: a quoted string (head
a quote, last a colon exactly on the key form), a bare keyword, or a
numeric literal over the numeric character set. -/
def TokShape (t : Tok) : Prop :=
  (∃ b, t.kind = TokKind.str b ∧ t.text.head? = some '"' ∧
    t.text.getLast? = some (if b then ':' else '"')) ∨
  (∃ w, t.kind = TokKind.kw w ∧ t.text = w ∧
    (w = ("true").data ∨ w = ("false").data ∨ w = ("null").data)) ∨
  (t.kind = TokKind.num ∧ ∀ c ∈ t.text, isNumChar c = true)

theorem tryToken_spec (hex : Char → Bool) (prev : Option Char)
    (cs : List Char) (t : Tok) (rest : List Char)
    (h : tryToken hex prev cs = some (t, rest)) :
    t.text ++ rest = cs ∧ t.text ≠ [] ∧ TokShape t := by
  unfold tryToken at h
  cases h1 : matchString hex cs with
  | some v =>
    rw [h1] at h
    simp [Option.orElse] at h
    rw [h] at h1
    obtain ⟨b, hk, ha, hh, hl⟩ := matchString_spec hex cs t rest h1
    refine ⟨ha, ?_, Or.inl ⟨b, hk, hh, hl⟩⟩
    intro hx
    rw [hx] at hh
    simp at hh
  | none =>
    rw [h1] at h
    simp only [Option.orElse] at h
    cases h2 : matchKeyword prev cs with
    | some v =>
      rw [h2] at h
      simp [Option.orElse] at h
      rw [h] at h2
      obtain ⟨w, hk, ht, ha, hw⟩ := matchKeyword_spec prev cs t rest h2
      refine ⟨by rw [ht]; exact ha, ?_, Or.inr (Or.inl ⟨w, hk, ht, hw⟩)⟩
      rw [ht]
      rcases hw with rfl | rfl | rfl <;> decide
    | none =>
      rw [h2] at h
      simp only [Option.orElse] at h
      obtain ⟨hk, ha, hne, hc⟩ := matchNumber_spec cs t rest h
      exact ⟨ha, hne, Or.inr (Or.inr ⟨hk, hc⟩)⟩

theorem scanF_succ (hex : Char → Bool) (fuel : Nat) (prev : Option Char)
    (cs : List Char) :
    scanF hex (fuel + 1) prev cs =
      match tryToken hex prev cs with
      | some (t, rest) => Seg.tok t :: scanF hex fuel t.text.getLast? rest
      | none =>
        match cs with
        | [] => []
        | c :: rest => Seg.raw c :: scanF hex fuel (some c) rest := rfl

theorem scanF_tok_shape (hex : Char → Bool) (fuel : Nat) :
    ∀ prev cs t, Seg.tok t ∈ scanF hex fuel prev cs → TokShape t := by
  induction fuel with
  | zero => intro prev cs t hmem; simp [scanF] at hmem
  | succ fuel ih =>
    intro prev cs t hmem
    rw [scanF_succ] at hmem
    cases htry : tryToken hex prev cs with
    | some v =>
      obtain ⟨t0, rest⟩ := v
      rw [htry] at hmem
      have hmem2 : Seg.tok t ∈ Seg.tok t0 :: scanF hex fuel t0.text.getLast? rest := hmem
      rcases List.mem_cons.mp hmem2 with heq | hmem3
      · obtain ⟨ha, hne, hs⟩ := tryToken_spec hex prev cs t0 rest htry
        cases heq
        exact hs
      · exact ih _ _ _ hmem3
    | none =>
      rw [htry] at hmem
      cases cs with
      | nil => simp at hmem
      | cons c rest =>
        have hmem2 : Seg.tok t ∈ Seg.raw c :: scanF hex fuel (some c) rest := hmem
        rcases List.mem_cons.mp hmem2 with heq | hmem3
        · exact Seg.noConfusion heq
        · exact ih _ _ _ hmem3

theorem scanF_join (hex : Char → Bool) (fuel : Nat) :
    ∀ prev cs, cs.length ≤ fuel →
      ((scanF hex fuel prev cs).map segText).flatten = cs := by
  induction fuel with
  | zero =>
    intro prev cs hlen
    have hnil : cs = [] := List.eq_nil_of_length_eq_zero (Nat.le_zero.mp hlen)
    subst hnil
    simp [scanF]
  | succ fuel ih =>
    intro prev cs hlen
    rw [scanF_succ]
    cases htry : tryToken hex prev cs with
    | some v =>
      obtain ⟨t0, rest⟩ := v
      obtain ⟨ha, hne, _⟩ := tryToken_spec hex prev cs t0 rest htry
      have hrest : rest.length ≤ fuel := by
        have h1 : t0.text.length + rest.length = cs.length := by
          rw [← ha]; simp
        have h2 : 1 ≤ t0.text.length := by
          cases hx : t0.text with
          | nil => exact absurd hx hne
          | cons a l => simp
        omega
      show (List.map segText (Seg.tok t0 :: scanF hex fuel t0.text.getLast? rest)).flatten = cs
      simp only [List.map_cons, List.flatten_cons, segText]
      rw [ih _ rest hrest]
      exact ha
    | none =>
      cases cs with
      | nil => simp
      | cons c rest =>
        have hrest : rest.length ≤ fuel := by
          simp at hlen
          omega
        show (List.map segText (Seg.raw c :: scanF hex fuel (some c) rest)).flatten = c :: rest
        simp only [List.map_cons, List.flatten_cons, segText]
        rw [ih _ rest hrest]
        rfl

/-- The global scan partitions the input: the matched texts and raw
characters, in order, concatenate back to the input. -/
theorem scanTokens_join (hex : Char → Bool) (cs : List Char) :
    ((scanTokens hex cs).map segText).flatten = cs :=
  scanF_join hex cs.length none cs (Nat.le_refl _)

theorem locGo_cons (p line col pos : Nat) (c : Char) (r : List Char) :
    locGo p (line, col) pos (c :: r) =
      if p ≤ pos then (line, col)
      else if c = '\n' then locGo p (line + 1, 1) (pos + 1) r
      else locGo p (line, col + 1) (pos + 1) r := rfl

theorem locGo_no_newline :
    ∀ (l : List Char) (p pos line col : Nat), pos ≤ p → p ≤ pos + l.length →
      (∀ c ∈ l.take (p - pos), c ≠ '\n') →
      locGo p (line, col) pos l = (line, col + (p - pos)) := by
  intro l
  induction l with
  | nil =>
    intro p pos line col h1 h2 h3
    have hpp : p - pos = 0 := by simp at h2; omega
    rw [hpp]
    simp [locGo]
  | cons c r ih =>
    intro p pos line col h1 h2 h3
    by_cases hbreak : p ≤ pos
    · rw [locGo_cons, if_pos hbreak]
      have hpp : p - pos = 0 := by omega
      rw [hpp]
      simp
    · have hpos : pos < p := by omega
      have h4 : p - pos = (p - pos - 1) + 1 := by omega
      have hcnl : c ≠ '\n' := by
        apply h3
        rw [h4, List.take_succ_cons]
        exact List.mem_cons_self c _
      rw [locGo_cons, if_neg hbreak, if_neg hcnl]
      rw [ih p (pos + 1) line (col + 1) (by omega)
        (by simp at h2 ⊢; omega)
        (by
          intro c2 hc2
          apply h3
          rw [h4, List.take_succ_cons]
          have hpp : p - pos - 1 = p - (pos + 1) := by omega
          rw [hpp]
          exact List.mem_cons_of_mem c hc2)]
      have hcc : col + 1 + (p - (pos + 1)) = col + (p - pos) := by omega
      rw [hcc]

theorem locGo_end :
    ∀ (l : List Char) (p pos : Nat) (lc : Nat × Nat), pos + l.length ≤ p →
      locGo p lc pos l = endWalk lc l := by
  intro l
  induction l with
  | nil =>
    intro p pos lc h
    cases lc
    simp [locGo, endWalk]
  | cons c r ih =>
    intro p pos lc h
    obtain ⟨line, col⟩ := lc
    simp at h
    rw [locGo_cons, if_neg (by omega)]
    unfold endWalk
    rw [List.foldl_cons]
    by_cases hc : c = '\n'
    · rw [if_pos hc, hc]
      simp only [if_pos rfl]
      exact ih p (pos + 1) (line + 1, 1) (by omega)
    · rw [if_neg hc]
      simp only [if_neg hc]
      exact ih p (pos + 1) (line, col + 1) (by omega)

theorem endWalk_fst :
    ∀ (l : List Char) (line col : Nat),
      (endWalk (line, col) l).1 = line + l.count '\n' := by
  intro l
  induction l with
  | nil => intro line col; simp [endWalk]
  | cons c r ih =>
    intro line col
    unfold endWalk
    rw [List.foldl_cons]
    by_cases hc : c = '\n'
    · subst hc
      simp only [if_pos rfl]
      show (endWalk (line + 1, 1) r).1 = _
      rw [ih]
      rw [List.count_cons]
      simp
      omega
    · rw [if_neg hc]
      show (endWalk (line, col + 1) r).1 = _
      rw [ih]
      rw [List.count_cons]
      have hbe : ((c == '\n') : Bool) = false := by
        simp [hc]
      rw [hbe]
      simp

theorem locGo_ge_one :
    ∀ (l : List Char) (p pos line col : Nat), 1 ≤ line → 1 ≤ col →
      1 ≤ (locGo p (line, col) pos l).1 ∧ 1 ≤ (locGo p (line, col) pos l).2 := by
  intro l
  induction l with
  | nil => intro p pos line col h1 h2; simp [locGo]; omega
  | cons c r ih =>
    intro p pos line col h1 h2
    rw [locGo_cons]
    by_cases hb : p ≤ pos
    · rw [if_pos hb]; exact ⟨h1, h2⟩
    · rw [if_neg hb]
      by_cases hc : c = '\n'
      · rw [if_pos hc]; exact ih p (pos + 1) (line + 1) 1 (by omega) (by omega)
      · rw [if_neg hc]; exact ih p (pos + 1) line (col + 1) h1 (by omega)

theorem splitNl_no_newline :
    ∀ l : List Char, (∀ c ∈ l, c ≠ '\n') → splitNl l = [l] := by
  intro l
  induction l with
  | nil => intro h; rfl
  | cons c r ih =>
    intro h
    have hc : c ≠ '\n' := h c (List.mem_cons_self c r)
    have hr : splitNl r = [r] := ih fun c2 hc2 => h c2 (List.mem_cons_of_mem c hc2)
    unfold splitNl
    rw [if_neg hc, hr]

theorem splitNl_length_pos (l : List Char) : 1 ≤ (splitNl l).length := by
  induction l with
  | nil => simp [splitNl]
  | cons c r ih =>
    unfold splitNl
    by_cases hc : c = '\n'
    · rw [if_pos hc]; simp
    · rw [if_neg hc]
      cases hsp : splitNl r with
      | nil => simp
      | cons h t => simp

theorem classify_str (m : List Char) (b : Bool) (hh : m.head? = some '"')
    (hl : m.getLast? = some (if b then ':' else '"')) :
    classify000 m = (if b then ("json-key").data else ("json-string").data) ∧
      pageColor m = (if b then ("#9cdcfe").data else ("#ce9178").data) := by
  cases b
  · simp only [if_neg (by decide : ¬False = True)] at *
    constructor <;> simp [classify000, pageColor, hh, hl]
  · simp only at *
    constructor <;> simp [classify000, pageColor, hh, hl]

theorem classify_num (m : List Char) (hc : ∀ c ∈ m, isNumChar c = true) :
    classify000 m = ("json-number").data ∧ pageColor m = ("#b5cea8").data := by
  have hh : ¬m.head? = some '"' := by
    intro hx
    rw [List.head?_eq_some_iff] at hx
    obtain ⟨ys, rfl⟩ := hx
    exact absurd (hc '"' (List.mem_cons_self _ _)) (by decide)
  have h1 : hasInfix ("true").data m = false := by
    by_contra hx
    rw [Bool.not_eq_false] at hx
    exact absurd (hc 'r' (hasInfix_subset _ _ hx (by decide))) (by decide)
  have h2 : hasInfix ("false").data m = false := by
    by_contra hx
    rw [Bool.not_eq_false] at hx
    exact absurd (hc 'a' (hasInfix_subset _ _ hx (by decide))) (by decide)
  have h3 : hasInfix ("null").data m = false := by
    by_contra hx
    rw [Bool.not_eq_false] at hx
    exact absurd (hc 'u' (hasInfix_subset _ _ hx (by decide))) (by decide)
  constructor <;> simp [classify000, pageColor, hh, h1, h2, h3]

theorem count_pageColor (a : Char)
    (ha : a = '{' ∨ a = '}' ∨ a = '[' ∨ a = ']') (m : List Char) :
    (pageColor m).count a = 0 := by
  unfold pageColor
  split_ifs <;> rcases ha with rfl | rfl | rfl | rfl <;> decide

theorem replaceQuotes_id (m : List Char) : replaceQuotes m = m := by
  unfold replaceQuotes
  induction m with
  | nil => rfl
  | cons c r ih =>
    by_cases hc : c = '"'
    · subst hc; simp [replaceChars, ih]
    · simp [replaceChars, hc, ih]

theorem count_replaceColonEnd (a : Char) (h1 : a ≠ '"') (h2 : a ≠ ':')
    (m : List Char) : (replaceColonEnd m).count a = m.count a := by
  unfold replaceColonEnd
  split
  · rename_i hl
    rw [List.getLast?_eq_some_iff] at hl
    obtain ⟨ys, rfl⟩ := hl
    rw [List.dropLast_concat]
    simp [List.count_append, List.count_cons, Ne.symm h1, Ne.symm h2]
  · rfl

theorem count_pageRender (a : Char)
    (ha : a = '{' ∨ a = '}' ∨ a = '[' ∨ a = ']') (seg : Seg) :
    (pageRender seg).count a = (segText seg).count a := by
  cases seg with
  | raw c => rfl
  | tok t =>
    have hq : a ≠ '"' := by rcases ha with rfl | rfl | rfl | rfl <;> decide
    have hcl : a ≠ ':' := by rcases ha with rfl | rfl | rfl | rfl <;> decide
    have h1 : (("<span style=\"color:").data).count a = 0 := by
      rcases ha with rfl | rfl | rfl | rfl <;> decide
    have h2 : (("\">").data).count a = 0 := by
      rcases ha with rfl | rfl | rfl | rfl <;> decide
    have h3 : (("</span>").data).count a = 0 := by
      rcases ha with rfl | rfl | rfl | rfl <;> decide
    unfold pageRender segText
    simp only [List.count_append, h1, h2, h3, count_pageColor a ha]
    split
    · rw [count_replaceColonEnd a hq hcl, replaceQuotes_id]
      omega
    · omega

theorem count_pageTokenPass (a : Char)
    (ha : a = '{' ∨ a = '}' ∨ a = '[' ∨ a = ']') (cs : List Char) :
    (pageTokenPass cs).count a = cs.count a := by
  unfold pageTokenPass
  have hren : ∀ segs : List Seg,
      ((segs.map pageRender).flatten).count a =
        ((segs.map segText).flatten).count a := by
    intro segs
    induction segs with
    | nil => rfl
    | cons seg rest ih =>
      simp only [List.map_cons, List.flatten_cons, List.count_append]
      rw [count_pageRender a ha seg, ih]
  rw [hren, scanTokens_join]

/-! # Claim theorems -/

set_option maxRecDepth 8192 in
/-- C1: the spec says every matched token is emitted inside its span
character-for-character unchanged.  The class variant does so, but the
page.tsx variant's key branch runs the match through
`replace(/"/g, '"')` and `replace(/:$/, '":')`, which inserts an extra
quote: the key `"a":` is emitted as `"a"":`.  Evaluating both
highlighters at the failing input exhibits the divergence. -/
theorem c1_page_key_mutated :
    pageHighlight (("\x7b\"a\":1\x7d").data) =
      (("<span style=\"color:#da70d6\">\x7b</span>" ++
        "<span style=\"color:#9cdcfe\">\"a\"\":</span>" ++
        "<span style=\"color:#b5cea8\">1</span>" ++
        "<span style=\"color:#da70d6\">\x7d</span>").data) ∧
    part000Highlight (("\x7b\"a\":1\x7d").data) =
      (("\x7b<span class=\"json-key\">\"a\":</span>" ++
        "<span class=\"json-number\">1</span>\x7d").data) ∧
    ("\"a\"\":").data ≠ ("\"a\":").data := by
  refine ⟨by decide, by decide, by decide⟩

/-- C2: a `position p` failure over a source whose first `p` characters
contain no newline locates the error at line 1, column `p + 1` (and the
line-number-only variant reports line 1). -/
theorem c2_single_line_position (t msg : List Char) (p : Nat)
    (hp : positionMatch msg = some p) (hlen : p ≤ t.length)
    (hnl : ∀ c ∈ t.take p, c ≠ '\n') :
    getErrorLocation t msg = some (1, p + 1) ∧
      getErrorLineNumber msg t = some 1 := by
  constructor
  · unfold getErrorLocation
    rw [hp]
    have hw := locGo_no_newline t p 0 1 1 (Nat.zero_le p)
      (by simpa using hlen) (by simpa using hnl)
    simp only [Nat.sub_zero] at hw
    show some (locGo p (1, 1) 0 t) = some (1, p + 1)
    rw [hw, Nat.add_comm 1 p]
  · unfold getErrorLineNumber
    rw [hp]
    show some (splitNl (t.take p)).length = some 1
    rw [splitNl_no_newline _ hnl]
    rfl

/-- C2 witness at a concrete message and source. -/
theorem c2_single_line_position_w :
    getErrorLocation (("abcd").data)
        (("Unexpected token d in JSON at position 3").data) = some (1, 4) ∧
      getErrorLineNumber (("Unexpected token d in JSON at position 3").data)
        (("abcd").data) = some 1 :=
  c2_single_line_position (("abcd").data)
    (("Unexpected token d in JSON at position 3").data) 3
    (by decide) (by decide) (by decide)

/-- C3: every match of the token pattern is classified as the claim
states, in both variants: a string with the trailing colon gets the key
class/color, a plain string the string class, `true`/`false` the
boolean class, `null` the null class, and numeric matches the number
class. -/
theorem c3_classification (hex : Char → Bool) (fuel : Nat)
    (prev : Option Char) (cs : List Char) (t : Tok)
    (hmem : Seg.tok t ∈ scanF hex fuel prev cs) :
    (t.kind = TokKind.str true →
      t.text.head? = some '"' ∧ t.text.getLast? = some ':' ∧
        classify000 t.text = ("json-key").data ∧
        pageColor t.text = ("#9cdcfe").data) ∧
    (t.kind = TokKind.str false →
      t.text.head? = some '"' ∧ t.text.getLast? = some '"' ∧
        classify000 t.text = ("json-string").data ∧
        pageColor t.text = ("#ce9178").data) ∧
    (t.kind = TokKind.kw (("true").data) ∨ t.kind = TokKind.kw (("false").data) →
      classify000 t.text = ("json-boolean").data ∧
        pageColor t.text = ("#569cd6").data) ∧
    (t.kind = TokKind.kw (("null").data) →
      classify000 t.text = ("json-null").data ∧
        pageColor t.text = ("#569cd6").data) ∧
    (t.kind = TokKind.num →
      classify000 t.text = ("json-number").data ∧
        pageColor t.text = ("#b5cea8").data) := by
  have hs := scanF_tok_shape hex fuel prev cs t hmem
  rcases hs with ⟨b, hk, hh, hl⟩ | ⟨w, hk, ht, hw⟩ | ⟨hk, hc⟩
  · have hcs := classify_str t.text b hh hl
    refine ⟨?_, ?_, ?_, ?_, ?_⟩ <;> intro hk1
    · rw [hk] at hk1
      cases hk1
      refine ⟨hh, by simpa using hl, by simpa using hcs⟩
    · rw [hk] at hk1
      cases hk1
      refine ⟨hh, by simpa using hl, by simpa using hcs⟩
    · rcases hk1 with hk1 | hk1 <;> rw [hk] at hk1 <;> cases hk1
    · rw [hk] at hk1; cases hk1
    · rw [hk] at hk1; cases hk1
  · refine ⟨?_, ?_, ?_, ?_, ?_⟩ <;> intro hk1
    · rw [hk] at hk1; cases hk1
    · rw [hk] at hk1; cases hk1
    · rcases hk1 with hk1 | hk1 <;> rw [hk] at hk1 <;> cases hk1 <;>
        rw [ht] <;> exact ⟨by decide, by decide⟩
    · rw [hk] at hk1
      cases hk1
      rw [ht]
      exact ⟨by decide, by decide⟩
    · rw [hk] at hk1; cases hk1
  · refine ⟨?_, ?_, ?_, ?_, ?_⟩ <;> intro hk1
    · rw [hk] at hk1; cases hk1
    · rw [hk] at hk1; cases hk1
    · rcases hk1 with hk1 | hk1 <;> rw [hk] at hk1 <;> cases hk1
    · rw [hk] at hk1; cases hk1
    · exact classify_num t.text hc

/-- C3 witness: the single-token scan of "1" is classified as a
number. -/
theorem c3_classification_w :
    classify000 ['1'] = ("json-number").data ∧
      pageColor ['1'] = ("#b5cea8").data :=
  (c3_classification isHexAF 1 none ['1'] ⟨TokKind.num, ['1']⟩
    (by decide)).2.2.2.2 rfl

/-- C4: the escape pass replaces `&`, then `<`, then `>`, which equals
the simultaneous per-character substitution (so nothing is
double-encoded); the escaped text contains no raw angle bracket and
every ampersand in it opens one of the three entities; the token scan
partitions the escaped text, so every token or raw character the
highlighter emits outside its injected span markup is free of raw
angle brackets. -/
theorem c4_escaping (s : List Char) :
    escapeHtml s = s.flatMap escFn ∧
    '<' ∉ escapeHtml s ∧ '>' ∉ escapeHtml s ∧
    ampEntityOk (escapeHtml s) = true ∧
    ((scanTokens isHexAF (escapeHtml s)).map segText).flatten = escapeHtml s ∧
    ((scanTokens isAlnumAscii (escapeHtml s)).map segText).flatten =
      escapeHtml s ∧
    (∀ seg ∈ scanTokens isHexAF (escapeHtml s), ∀ c ∈ segText seg,
      c ≠ '<' ∧ c ≠ '>') ∧
    (∀ seg ∈ scanTokens isAlnumAscii (escapeHtml s), ∀ c ∈ segText seg,
      c ≠ '<' ∧ c ≠ '>') := by
  obtain ⟨hlt, hgt⟩ := no_raw_angle_escapeHtml s
  have hseg : ∀ hex : Char → Bool,
      ∀ seg ∈ scanTokens hex (escapeHtml s), ∀ c ∈ segText seg,
        c ≠ '<' ∧ c ≠ '>' := by
    intro hex seg hsg c hc
    have hcmem : c ∈ escapeHtml s := by
      rw [← scanTokens_join hex (escapeHtml s)]
      rw [List.mem_flatten]
      exact ⟨segText seg, List.mem_map_of_mem segText hsg, hc⟩
    constructor
    · intro hx; rw [hx] at hcmem; exact hlt hcmem
    · intro hx; rw [hx] at hcmem; exact hgt hcmem
  exact ⟨escapeHtml_flatMap s, hlt, hgt, ampEntityOk_escapeHtml s,
    scanTokens_join isHexAF (escapeHtml s),
    scanTokens_join isAlnumAscii (escapeHtml s),
    hseg isHexAF, hseg isAlnumAscii⟩

/-- C4 witness at a concrete string. -/
theorem c4_escaping_w :
    escapeHtml (("a<b&c>d").data) = (("a<b&c>d").data).flatMap escFn ∧
      '<' ∉ escapeHtml (("a<b&c>d").data) :=
  ⟨(c4_escaping (("a<b&c>d").data)).1, (c4_escaping (("a<b&c>d").data)).2.1⟩

/-- C5 counterexample: on empty input the page.tsx validate handler
does not leave the error state null — it sets the prompt message. -/
theorem c5_counterexample :
    (pageValidateJSON (fun _ => (Except.error [] : Except (List Char) Unit))
      [] ⟨[], none, none⟩).error ≠ none := by decide

/-- C5 (amended): on empty or all-whitespace input, format and minify
clear output and error in both variants, and the unnamed variant's
parse step reports neither value nor error; the page.tsx validate
handler, however, sets the error to the prompt message (with a null
error line) instead of leaving it null. -/
theorem c5_blank_input {α : Type} (parse : List Char → Except (List Char) α)
    (stringify : α → Nat → List Char) (stringifyMin sf2 : α → List Char)
    (isNull : α → Bool) (indent : Nat) (minify : Bool)
    (input : List Char) (st : PageState)
    (hws : input.all isJsSpace = true) :
    pageFormatJSON parse stringify indent input = ⟨[], none, none⟩ ∧
    pageMinifyJSON parse stringifyMin input = ⟨[], none, none⟩ ∧
    parseAndValidate parse input = (none, none) ∧
    formatJson0 parse isNull sf2 stringifyMin minify input = ⟨[], [], none⟩ ∧
    pageValidateJSON parse input st =
      { st with error := some (("Please enter some JSON to validate").data),
                errorLine := none } := by
  have hpv : parseAndValidate parse input = (none, none) := by
    unfold parseAndValidate
    rw [if_pos hws]
  refine ⟨?_, ?_, hpv, ?_, ?_⟩
  · unfold pageFormatJSON; rw [if_pos hws]
  · unfold pageMinifyJSON; rw [if_pos hws]
  · unfold formatJson0; rw [hpv]
  · unfold pageValidateJSON; rw [if_pos hws]

/-- C5 witness at blank input and a concrete state. -/
theorem c5_blank_input_w :
    pageFormatJSON (fun _ => (Except.error [] : Except (List Char) Unit))
        (fun _ _ => []) 2 ((" ").data) = ⟨[], none, none⟩ ∧
      pageMinifyJSON (fun _ => (Except.error [] : Except (List Char) Unit))
        (fun _ => []) ((" ").data) = ⟨[], none, none⟩ ∧
      parseAndValidate (fun _ => (Except.error [] : Except (List Char) Unit))
        ((" ").data) = (none, none) ∧
      formatJson0 (fun _ => (Except.error [] : Except (List Char) Unit))
        (fun _ => false) (fun _ => []) (fun _ => []) false ((" ").data) =
        ⟨[], [], none⟩ ∧
      pageValidateJSON (fun _ => (Except.error [] : Except (List Char) Unit))
        ((" ").data) ⟨['o'], none, some 5⟩ =
        ⟨['o'], some (("Please enter some JSON to validate").data), none⟩ :=
  c5_blank_input (fun _ => (Except.error [] : Except (List Char) Unit))
    (fun _ _ => []) (fun _ => []) (fun _ => []) (fun _ => false) 2 false
    ((" ").data) ⟨['o'], none, some 5⟩ (by decide)

/-- C6 counterexample: a brace inside an already-tagged string span is
not left unmodified — the brace pass wraps it in a nested span. -/
theorem c6_counterexample :
    pageHighlight (("\"\x7b\"").data) =
      (("<span style=\"color:#ce9178\">\"" ++
        "<span style=\"color:#da70d6\">\x7b</span>\"</span>").data) ∧
    pageHighlight (("\"\x7b\"").data) ≠
      (("<span style=\"color:#ce9178\">\"\x7b\"</span>").data) := by
  refine ⟨by decide, by decide⟩

/-- C6 (amended): the brace and bracket passes wrap every brace and
bracket character of their input, including characters inside
previously tagged spans; the token pass neither adds nor removes brace
or bracket characters (its injected markup contains none), so exactly
the braces and brackets of the escaped input are wrapped. -/
theorem c6_brace_bracket_passes (t cs : List Char) :
    pageBracePass t = (t.flatMap fun c =>
      if c = '{' || c = '}' then
        ("<span style=\"color:#da70d6\">").data ++ [c] ++ ("</span>").data
      else [c]) ∧
    pageBracketPass t = (t.flatMap fun c =>
      if c = '[' || c = ']' then
        ("<span style=\"color:#ffd700\">").data ++ [c] ++ ("</span>").data
      else [c]) ∧
    (pageTokenPass cs).count '{' = cs.count '{' ∧
    (pageTokenPass cs).count '}' = cs.count '}' ∧
    (pageTokenPass cs).count '[' = cs.count '[' ∧
    (pageTokenPass cs).count ']' = cs.count ']' :=
  ⟨replaceChars_flatMap _ _ t, replaceChars_flatMap _ _ t,
    count_pageTokenPass '{' (by simp) cs, count_pageTokenPass '}' (by simp) cs,
    count_pageTokenPass '[' (by simp) cs, count_pageTokenPass ']' (by simp) cs⟩

/-- C7: an offset at or beyond the end of the text makes the walk run
to end-of-text and return that location as a present result (line =
newline count + 1); the line-number variant counts the lines of the
whole text. -/
theorem c7_offset_beyond_end (t msg : List Char) (p : Nat)
    (hp : positionMatch msg = some p) (hlen : t.length ≤ p) :
    getErrorLocation t msg = some (endWalk (1, 1) t) ∧
      (endWalk (1, 1) t).1 = t.count '\n' + 1 ∧
      getErrorLineNumber msg t = some (splitNl t).length := by
  refine ⟨?_, ?_, ?_⟩
  · unfold getErrorLocation
    rw [hp]
    show some (locGo p (1, 1) 0 t) = some (endWalk (1, 1) t)
    rw [locGo_end t p 0 (1, 1) (by omega)]
  · rw [endWalk_fst]
    omega
  · unfold getErrorLineNumber
    rw [hp]
    show some (splitNl (t.take p)).length = some (splitNl t).length
    rw [List.take_of_length_le hlen]

/-- C7 witness: a two-line text with the offset past its end. -/
theorem c7_offset_beyond_end_w :
    getErrorLocation (("a\nb").data) (("position 7").data) =
        some (endWalk (1, 1) (("a\nb").data)) ∧
      (endWalk (1, 1) (("a\nb").data)).1 = (("a\nb").data).count '\n' + 1 ∧
      getErrorLineNumber (("position 7").data) (("a\nb").data) =
        some (splitNl (("a\nb").data)).length :=
  c7_offset_beyond_end (("a\nb").data) (("position 7").data) 7
    (by decide) (by decide)

/-- C8 counterexample: the page.tsx `line N` fallback returns the
parsed digits verbatim, so the message `bad line 0` yields line 0,
which is not ≥ 1. -/
theorem c8_counterexample :
    getErrorLineNumber (("bad line 0").data) (("x").data) = some 0 ∧
      ¬1 ≤ 0 := by
  refine ⟨by decide, by decide⟩

/-- C8 (amended): a present location of the walking variant always has
line ≥ 1 and column ≥ 1, and the page.tsx variant's result is ≥ 1
whenever it comes from the position branch; only the raw `line N`
fallback can return a value below 1. -/
theorem c8_location_ge_one :
    (∀ t msg line col, getErrorLocation t msg = some (line, col) →
      1 ≤ line ∧ 1 ≤ col) ∧
    (∀ t msg p, positionMatch msg = some p →
      ∃ n, getErrorLineNumber msg t = some n ∧ 1 ≤ n) := by
  constructor
  · intro t msg line col h
    unfold getErrorLocation at h
    cases hp : positionMatch msg with
    | none => rw [hp] at h; simp at h
    | some p =>
      rw [hp] at h
      have h2 : locGo p (1, 1) 0 t = (line, col) := by
        simpa using h
      have h3 := locGo_ge_one t p 0 1 1 (Nat.le_refl 1) (Nat.le_refl 1)
      rw [h2] at h3
      simpa using h3
  · intro t msg p hp
    refine ⟨(splitNl (t.take p)).length, ?_, splitNl_length_pos _⟩
    unfold getErrorLineNumber
    rw [hp]

/-- C8 witness at concrete messages. -/
theorem c8_location_ge_one_w :
    ((1 : Nat) ≤ 1 ∧ (1 : Nat) ≤ 3) ∧
      ∃ n, getErrorLineNumber (("position 2").data) (("ab").data) = some n ∧
        1 ≤ n :=
  ⟨c8_location_ge_one.1 (("ab").data) (("position 2").data) 1 3 (by decide),
    c8_location_ge_one.2 (("ab").data) (("position 2").data) 2 (by decide)⟩

/-- C9: a failure message with neither a `position N` nor a `line N`
substring yields an absent location in both variants, and the callers
still surface the raw message with the location fields null. -/
theorem c9_no_location {α : Type} (t input msg : List Char)
    (parse : List Char → Except (List Char) α)
    (stringify : α → Nat → List Char) (stringifyMin sf2 : α → List Char)
    (isNull : α → Bool) (indent : Nat) (minify : Bool)
    (hpos : positionMatch msg = none) (hline : lineMatch msg = none)
    (hws : input.all isJsSpace = false)
    (hparse : parse input = Except.error msg) :
    getErrorLocation t msg = none ∧
      getErrorLineNumber msg t = none ∧
      pageFormatJSON parse stringify indent input = ⟨[], some msg, none⟩ ∧
      formatJson0 parse isNull sf2 stringifyMin minify input =
        ⟨[], [], some ⟨msg, none, none⟩⟩ := by
  have hloc : ∀ t2 : List Char, getErrorLocation t2 msg = none := by
    intro t2
    unfold getErrorLocation
    rw [hpos]
    rfl
  have hln : ∀ t2 : List Char, getErrorLineNumber msg t2 = none := by
    intro t2
    unfold getErrorLineNumber
    rw [hpos]
    show lineMatch msg = none
    exact hline
  refine ⟨hloc t, hln t, ?_, ?_⟩
  · unfold pageFormatJSON
    rw [if_neg (by simp [hws])]
    rw [hparse]
    show (⟨[], some msg, getErrorLineNumber msg input⟩ : PageState) =
      ⟨[], some msg, none⟩
    rw [hln input]
  · unfold formatJson0 parseAndValidate
    rw [if_neg (by simp [hws]), hparse]
    show (⟨[], [], some ⟨msg, ((getErrorLocation input msg).map Prod.fst),
      ((getErrorLocation input msg).map Prod.snd)⟩⟩ : P0State) = _
    rw [hloc input]
    rfl

/-- C9 witness: a message with no position and no line information. -/
theorem c9_no_location_w :
    getErrorLocation (("y").data) (("Unexpected end of JSON input").data) =
        none ∧
      getErrorLineNumber (("Unexpected end of JSON input").data) (("y").data) =
        none ∧
      pageFormatJSON
          (fun _ => (Except.error (("Unexpected end of JSON input").data) :
            Except (List Char) Unit)) (fun _ _ => []) 2 (("x").data) =
        ⟨[], some (("Unexpected end of JSON input").data), none⟩ ∧
      formatJson0
          (fun _ => (Except.error (("Unexpected end of JSON input").data) :
            Except (List Char) Unit)) (fun _ => false) (fun _ => [])
          (fun _ => []) false (("x").data) =
        ⟨[], [], some ⟨("Unexpected end of JSON input").data, none, none⟩⟩ :=
  c9_no_location (("y").data) (("x").data)
    (("Unexpected end of JSON input").data)
    (fun _ => (Except.error (("Unexpected end of JSON input").data) :
      Except (List Char) Unit))
    (fun _ _ => []) (fun _ => []) (fun _ => []) (fun _ => false) 2 false
    (by decide) (by decide) (by decide) rfl

/-- C10: after any format or minify invocation, a set error state
always comes with empty output (and an empty highlighted-output cache
in the unnamed variant). -/
theorem c10_error_clears_output {α : Type}
    (parse : List Char → Except (List Char) α)
    (stringify : α → Nat → List Char) (stringifyMin sf2 : α → List Char)
    (isNull : α → Bool) (indent : Nat) (minify : Bool) (input : List Char) :
    ((pageFormatJSON parse stringify indent input).error.isSome = true →
      (pageFormatJSON parse stringify indent input).output = []) ∧
    ((pageMinifyJSON parse stringifyMin input).error.isSome = true →
      (pageMinifyJSON parse stringifyMin input).output = []) ∧
    ((formatJson0 parse isNull sf2 stringifyMin minify input).error.isSome =
        true →
      (formatJson0 parse isNull sf2 stringifyMin minify input).output = [] ∧
        (formatJson0 parse isNull sf2 stringifyMin minify
          input).highlightedOutput = []) := by
  refine ⟨?_, ?_, ?_⟩
  · intro h
    unfold pageFormatJSON at h ⊢
    by_cases hws : input.all isJsSpace
    · rw [if_pos hws] at h
      simp at h
    · rw [if_neg hws] at h ⊢
      cases hparse : parse input with
      | ok v => rw [hparse] at h; simp at h
      | error msg => rfl
  · intro h
    unfold pageMinifyJSON at h ⊢
    by_cases hws : input.all isJsSpace
    · rw [if_pos hws] at h
      simp at h
    · rw [if_neg hws] at h ⊢
      cases hparse : parse input with
      | ok v => rw [hparse] at h; simp at h
      | error msg => rfl
  · intro h
    unfold formatJson0 at h ⊢
    cases hpv : parseAndValidate parse input with
    | mk parsed perr =>
      rw [hpv] at h
      cases parsed with
      | none =>
        cases perr with
        | some pe => exact ⟨rfl, rfl⟩
        | none => simp at h
      | some v =>
        cases perr with
        | some pe => exact ⟨rfl, rfl⟩
        | none => by_cases hn : isNull v = true <;> simp [hn] at h

/-- C10 witness: a failing parse on concrete input leaves the output
cells empty. -/
theorem c10_error_clears_output_w :
    (pageFormatJSON (fun _ => (Except.error ['e'] : Except (List Char) Unit))
        (fun _ _ => []) 2 (("x").data)).output = [] ∧
      (formatJson0 (fun _ => (Except.error ['e'] : Except (List Char) Unit))
          (fun _ => false) (fun _ => []) (fun _ => []) true
          (("x").data)).output = [] :=
  ⟨(c10_error_clears_output
      (fun _ => (Except.error ['e'] : Except (List Char) Unit))
      (fun _ _ => []) (fun _ => []) (fun _ => []) (fun _ => false) 2 true
      (("x").data)).1 (by decide),
    ((c10_error_clears_output
      (fun _ => (Except.error ['e'] : Except (List Char) Unit))
      (fun _ _ => []) (fun _ => []) (fun _ => []) (fun _ => false) 2 true
      (("x").data)).2.2 (by decide)).1⟩

end JsonFmt
